import Mathlib

/-!
# my_c_lib.c : the two C functions exported for the FFI example

A shallow embedding of `src/my_c_lib.c`:

* `int multiply_by_two_from_c(int x) { return x * 2; }`
* `void print_string_from_c(const char* s) { printf("[C] String from Rust: %s\n", s); }`

`int` is the signed 32-bit integer of the FFI boundary and is modelled by `Int` together
with the range predicate `isInt32`; the multiplication wraps modulo `2^32`, as the
two's-complement machine instruction does (ISO C leaves signed overflow undefined, so
this is the behaviour of the compiled code on the target platform).
The program state is the byte memory the string pointer refers to and the bytes
written to standard output so far.  A call that has undefined behaviour in C
(a pointer outside memory, a string without terminator) is `none`.
`printf` counts the bytes it writes in an `int`: once the count passes `INT_MAX` it gives
up with `EOVERFLOW` and the rest of the format is not written.
-/

namespace MyCLib

/-! ## Machine integers -/

/-- Smallest value of the C type `int` (32 bits). -/
def INT_MIN : Int := -2147483648

/-- Largest value of the C type `int` (32 bits). -/
def INT_MAX : Int := 2147483647

/-- The mathematical integer `z` is representable in the C type `int`. -/
def isInt32 (z : Int) : Prop := INT_MIN ≤ z ∧ z ≤ INT_MAX

instance (z : Int) : Decidable (isInt32 z) := by
  unfold isInt32; exact inferInstance

/-- Two's-complement reduction of a mathematical integer to the 32-bit signed range. -/
def wrap32 (z : Int) : Int := (z + 2147483648) % 4294967296 - 2147483648

/-- The C expression `a * b` on operands of type `int`, with wraparound on overflow. -/
def int_mul (a b : Int) : Int := wrap32 (a * b)

/-! ## Program state -/

/-- One C `char` seen as an unsigned byte. -/
abbrev Byte := Fin 256

/-- The state a call can observe or change: the byte memory (a pointer is an index
into it) and everything written to standard output so far. -/
structure CState where
  mem : List Byte
  stdout : List Byte
deriving DecidableEq, Repr

/-- A C call returning a value of type `α`: it may be undefined (`none`), otherwise it
yields the returned value and the state after the call. -/
abbrev CCall (α : Type) := CState → Option (α × CState)

/-- The bytes of an ASCII string literal of the source, without the terminator. -/
def c_str_lit (s : String) : List Byte := s.toList.map (fun c => Fin.ofNat c.toNat)

/-- The terminator of a C string. -/
def NUL : Byte := 0

/-- The newline character. -/
def NEWLINE : Byte := 10

/-- The character that starts a conversion specification of `printf`. -/
def PERCENT : Byte := 37

/-- The character `s` of the conversion `%s`. -/
def CONV_S : Byte := 115

/-! ## The part of `printf` the source uses -/

/-- Reading a C string from the bytes that start at a pointer: the bytes before the first
zero byte.  Without a zero byte the read runs off the memory, which is undefined. -/
def read_cstr : List Byte → Option (List Byte)
  | [] => none
  | b :: bs => if b = NUL then some [] else (read_cstr bs).map (fun r => b :: r)

/-- An argument passed to `printf` after the format. -/
inductive PrintfArg where
  | str (p : Nat)
  | int (v : Int)
deriving DecidableEq, Repr

/-- The bytes `printf` writes for a format and its arguments, `done` being the number of
bytes written so far.  Ordinary characters are copied; `%s` takes the next argument, a
pointer, and copies the C string it points to; `%%` writes a percent sign.  No other
conversion occurs in the live code of the source.  The count is kept in an `int`: each
piece is written first and then counted, and when the count would pass `INT_MAX` the call
fails with `EOVERFLOW` there, leaving the rest of the format unwritten. -/
def printf_format (mem : List Byte) : Nat → List Byte → List PrintfArg → Option (List Byte)
  | _, [], _ => some []
  | _, [c], _ => if c = PERCENT then none else some [c]
  | done, c :: d :: fmt, args =>
    if c = PERCENT then
      if d = CONV_S then
        match args with
        | PrintfArg.str p :: rest =>
          match read_cstr (mem.drop p) with
          | some s =>
            if done + s.length > INT_MAX.toNat then some s
            else (printf_format mem (done + s.length) fmt rest).map (fun r => s ++ r)
          | none => none
        | _ => none
      else if d = PERCENT then
        if done + 1 > INT_MAX.toNat then some [PERCENT]
        else (printf_format mem (done + 1) fmt args).map (fun r => PERCENT :: r)
      else none
    else
      if done + 1 > INT_MAX.toNat then some [c]
      else (printf_format mem (done + 1) (d :: fmt) args).map (fun r => c :: r)

/-- The library call `printf(fmt, args...)`: the bytes it writes are appended to standard
output, memory is not written.  The returned value (the count, or a negative value after
`EOVERFLOW`) is not used by the source. -/
def printf (fmt : List Byte) (args : List PrintfArg) : CCall Unit := fun st =>
  match printf_format st.mem 0 fmt args with
  | some out => some ((), CState.mk st.mem (st.stdout ++ out))
  | none => none

/-! ## The functions of `my_c_lib.c` -/

/-- Source: `int multiply_by_two_from_c(int x) { return x * 2; }`. -/
def multiply_by_two_from_c (x : Int) : CCall Int := fun st =>
  some (int_mul x 2, st)

/-- Source:
`void print_string_from_c(const char* s) { printf("[C] String from Rust: %s\n", s); }`. -/
def print_string_from_c (s : Nat) : CCall Unit :=
  printf (c_str_lit "[C] String from Rust: %s\n") [PrintfArg.str s]

/-- The fixed text the format puts before the string. -/
def LINE_HEAD : List Byte := c_str_lit "[C] String from Rust: "

/-- What the format leaves after the string: the newline, unless the count of bytes has
passed `INT_MAX` with the string, which happens from 2147483626 bytes on. -/
def line_end (payload : List Byte) : List Byte :=
  if payload.length ≤ 2147483625 then [NEWLINE] else []

/-- A string of 2147483626 bytes `A`, the shortest one after which the count of `printf`
has passed `INT_MAX`. -/
def LONG_PAYLOAD : List Byte := List.replicate 2147483626 65

/-! ## Auxiliary facts -/

theorem read_cstr_terminated (payload rest : List Byte) (h : NUL ∉ payload) :
    read_cstr (payload ++ NUL :: rest) = some payload := by
  induction payload with
  | nil => simp [read_cstr]
  | cons b bs ih =>
    have hb : b ≠ NUL := fun e => h (by simp [e])
    have hbs : NUL ∉ bs := fun e => h (by simp [e])
    simp [read_cstr, hb, ih hbs]

theorem read_cstr_unterminated (l : List Byte) (h : NUL ∉ l) : read_cstr l = none := by
  induction l with
  | nil => rfl
  | cons b bs ih =>
    have hb : b ≠ NUL := fun e => h (by simp [e])
    have hbs : NUL ∉ bs := fun e => h (by simp [e])
    simp [read_cstr, hb, ih hbs]

theorem int_max_count : INT_MAX.toNat = 2147483647 := by decide

theorem line_head_length : LINE_HEAD.length = 22 := by decide

theorem printf_format_literal (mem : List Byte) (lit : List Byte) (h : PERCENT ∉ lit)
    (done : Nat) (hcount : done + lit.length ≤ INT_MAX.toNat)
    (fmt : List Byte) (args : List PrintfArg) :
    printf_format mem done (lit ++ fmt) args =
      (printf_format mem (done + lit.length) fmt args).map (fun r => lit ++ r) := by
  induction lit generalizing done with
  | nil => simp
  | cons c cs ih =>
    have hc : c ≠ PERCENT := fun e => h (by simp [e])
    have hcs : PERCENT ∉ cs := fun e => h (by simp [e])
    have hlen : done + 1 + cs.length ≤ INT_MAX.toNat := by
      simp only [List.length_cons] at hcount; omega
    have hdone : ¬ (done + 1 > INT_MAX.toNat) := by omega
    cases hrest : cs ++ fmt with
    | nil =>
      have h1 : cs = [] := (List.append_eq_nil.mp hrest).1
      have h2 : fmt = [] := (List.append_eq_nil.mp hrest).2
      subst h1 h2
      simp [printf_format, hc]
    | cons d ds =>
      have step : printf_format mem done (c :: d :: ds) args =
          (printf_format mem (done + 1) (d :: ds) args).map (fun r => c :: r) := by
        simp only [printf_format, if_neg hc, if_neg hdone]
      rw [List.cons_append, hrest, step, ← hrest, ih hcs (done + 1) hlen]
      have e : done + 1 + cs.length = done + (c :: cs).length := by
        simp only [List.length_cons]; omega
      rw [e]
      cases printf_format mem (done + (c :: cs).length) fmt args <;> simp

theorem printf_format_line (mem : List Byte) (p : Nat) :
    printf_format mem 0 (c_str_lit "[C] String from Rust: %s\n") [PrintfArg.str p] =
      (read_cstr (mem.drop p)).map (fun s => LINE_HEAD ++ s ++ line_end s) := by
  have hsplit : c_str_lit "[C] String from Rust: %s\n" =
      LINE_HEAD ++ [PERCENT, CONV_S, NEWLINE] := by decide
  have hlit : PERCENT ∉ LINE_HEAD := by decide
  have hnl : NEWLINE ≠ PERCENT := by decide
  have hcount : 0 + LINE_HEAD.length ≤ INT_MAX.toNat := by
    rw [line_head_length, int_max_count]; omega
  rw [hsplit, printf_format_literal mem LINE_HEAD hlit 0 hcount, line_head_length]
  cases h : read_cstr (mem.drop p) with
  | none => simp [printf_format, h]
  | some s =>
    by_cases hs : s.length ≤ 2147483625
    · have hle : ¬ (0 + 22 + s.length > INT_MAX.toNat) := by
        rw [int_max_count]; omega
      simp only [printf_format, h, if_pos, if_neg hle, if_neg hnl, line_end, if_pos hs,
        Option.map_some', List.append_assoc]
    · have hgt : 0 + 22 + s.length > INT_MAX.toNat := by
        rw [int_max_count]; omega
      simp only [printf_format, h, if_pos, if_pos hgt, line_end, if_neg hs,
        Option.map_some', List.append_nil]

theorem print_string_from_c_eq (p : Nat) (st : CState) :
    print_string_from_c p st =
      (read_cstr (st.mem.drop p)).map
        (fun s => ((), CState.mk st.mem (st.stdout ++ (LINE_HEAD ++ s ++ line_end s)))) := by
  unfold print_string_from_c printf
  rw [printf_format_line]
  cases read_cstr (st.mem.drop p) <;> rfl

theorem long_payload_length : LONG_PAYLOAD.length = 2147483626 := by
  unfold LONG_PAYLOAD
  exact List.length_replicate _ _

theorem long_payload_no_nul : NUL ∉ LONG_PAYLOAD := by
  unfold LONG_PAYLOAD
  intro h
  have e : NUL = 65 := List.eq_of_mem_replicate h
  exact absurd e (by decide)

theorem split_at_first_nul (l : List Byte) (h : NUL ∈ l) :
    ∃ payload rest : List Byte, NUL ∉ payload ∧ l = payload ++ NUL :: rest := by
  induction l with
  | nil => simp at h
  | cons b bs ih =>
    by_cases hb : b = NUL
    · exact ⟨[], bs, by simp, by simp [hb]⟩
    · have hbs : NUL ∈ bs := by
        rcases List.mem_cons.mp h with e | e
        · exact absurd e.symm hb
        · exact e
      obtain ⟨pl, rest, h1, h2⟩ := ih hbs
      refine ⟨b :: pl, rest, ?_, by simp [h2]⟩
      intro hmem
      rcases List.mem_cons.mp hmem with e | e
      · exact hb e.symm
      · exact h1 e

theorem print_string_terminated (st : CState) (p : Nat) (payload rest : List Byte)
    (h0 : NUL ∉ payload) (hmem : st.mem.drop p = payload ++ NUL :: rest) :
    print_string_from_c p st =
      some ((), CState.mk st.mem (st.stdout ++ (LINE_HEAD ++ payload ++ line_end payload))) := by
  rw [print_string_from_c_eq, hmem, read_cstr_terminated payload rest h0]
  rfl

theorem state_without_newline_ne (m old out : List Byte) (b : Byte) :
    some ((), CState.mk m (old ++ out)) ≠ some ((), CState.mk m (old ++ (out ++ [b]))) := by
  intro e
  have e1 := congrArg (fun q => q.2.stdout.length) (Option.some.inj e)
  simp at e1

theorem line_end_short (payload : List Byte) (h : payload.length ≤ 2147483625) :
    line_end payload = [NEWLINE] := by
  unfold line_end
  rw [if_pos h]

theorem line_end_long : line_end LONG_PAYLOAD = [] := by
  unfold line_end
  rw [long_payload_length]
  rfl

theorem int_mul_two_range (x : Int) : isInt32 (int_mul x 2) := by
  unfold isInt32 int_mul wrap32 INT_MIN INT_MAX
  omega

/-! ## multiply_by_two_from_c -/

/-- C1: for every signed 32-bit `x` and every state, the call returns (it is never
undefined) a value `r` that lies in the int32 range and is congruent to `2 * x` modulo
`2^32`; `r` is the only int32 value with that congruence. -/
theorem multiply_by_two_wraparound (x : Int) (hx : isInt32 x) (st : CState) :
    ∃ r : Int, multiply_by_two_from_c x st = some (r, st) ∧ isInt32 r ∧
      r ≡ 2 * x [ZMOD 4294967296] ∧
      ∀ r2 : Int, isInt32 r2 → r2 ≡ 2 * x [ZMOD 4294967296] → r2 = r := by
  have _ := hx
  refine ⟨int_mul x 2, rfl, int_mul_two_range x, ?_, ?_⟩
  · unfold Int.ModEq int_mul wrap32
    omega
  · intro r2 h2 hmod
    unfold Int.ModEq at hmod
    unfold isInt32 INT_MIN INT_MAX at h2
    unfold int_mul wrap32
    omega

theorem multiply_by_two_wraparound_witness :
    isInt32 2147483647 ∧
    ∃ r : Int, multiply_by_two_from_c 2147483647 ⟨[], []⟩ = some (r, ⟨[], []⟩) ∧ isInt32 r ∧
      r ≡ 2 * 2147483647 [ZMOD 4294967296] ∧
      ∀ r2 : Int, isInt32 r2 → r2 ≡ 2 * 2147483647 [ZMOD 4294967296] → r2 = r :=
  ⟨by decide, multiply_by_two_wraparound 2147483647 (by decide) ⟨[], []⟩⟩

/-- C2: `multiply_by_two_from_c(5)` returns `10` and `multiply_by_two_from_c(-3)`
returns `-6`, in every state and leaving it as it was. -/
theorem multiply_by_two_literals :
    ∀ st : CState, multiply_by_two_from_c 5 st = some (10, st) ∧
      multiply_by_two_from_c (-3) st = some (-6, st) := by
  intro st
  constructor <;> rfl

/-- C6: the call has no side effect: for every int32 `x` and every state the state after
the call is the state before it (standard output and memory included), and the value
returned is the same in every other state. -/
theorem multiply_by_two_no_side_effect (x : Int) (hx : isInt32 x) (st : CState) :
    ∃ r : Int, multiply_by_two_from_c x st = some (r, st) ∧
      (∀ st2 : CState, ∃ st3 : CState, multiply_by_two_from_c x st2 = some (r, st3) ∧
        st3.stdout = st2.stdout ∧ st3.mem = st2.mem) := by
  have _ := hx
  exact ⟨int_mul x 2, rfl, fun st2 => ⟨st2, rfl, rfl, rfl⟩⟩

theorem multiply_by_two_no_side_effect_witness :
    isInt32 (-7) ∧
    ∃ r : Int, multiply_by_two_from_c (-7) ⟨[65, 0], [66]⟩ = some (r, ⟨[65, 0], [66]⟩) ∧
      (∀ st2 : CState, ∃ st3 : CState, multiply_by_two_from_c (-7) st2 = some (r, st3) ∧
        st3.stdout = st2.stdout ∧ st3.mem = st2.mem) :=
  ⟨by decide, multiply_by_two_no_side_effect (-7) (by decide) ⟨[65, 0], [66]⟩⟩

/-- C8: for every int32 `x` the returned value equals the mathematical `2 * x` exactly
when `-2^30 ≤ x ≤ 2^30 - 1`; below that range it is `2 * x + 2^32`, above it is
`2 * x - 2^32`, so outside the range it differs from `2 * x` by exactly `2^32`; and
`INT_MAX` yields `-2`. -/
theorem multiply_by_two_overflow_range (x : Int) (hx : isInt32 x) (st : CState) :
    ∃ r : Int, multiply_by_two_from_c x st = some (r, st) ∧
      (r = 2 * x ↔ (-1073741824 ≤ x ∧ x ≤ 1073741823)) ∧
      (x < -1073741824 → r = 2 * x + 4294967296) ∧
      (1073741823 < x → r = 2 * x - 4294967296) ∧
      (¬ (-1073741824 ≤ x ∧ x ≤ 1073741823) → |r - 2 * x| = 4294967296) ∧
      multiply_by_two_from_c INT_MAX st = some (-2, st) := by
  unfold isInt32 INT_MIN INT_MAX at hx
  have hlo : x < -1073741824 → int_mul x 2 = 2 * x + 4294967296 := by
    intro h; unfold int_mul wrap32; omega
  have hhi : 1073741823 < x → int_mul x 2 = 2 * x - 4294967296 := by
    intro h; unfold int_mul wrap32; omega
  refine ⟨int_mul x 2, rfl, ?_, hlo, hhi, ?_, rfl⟩
  · unfold int_mul wrap32
    omega
  · intro h
    by_cases hl : x < -1073741824
    · rw [hlo hl]; simp
    · have hh : 1073741823 < x := by omega
      rw [hhi hh]; simp

theorem multiply_by_two_overflow_range_witness :
    isInt32 (-2147483648) ∧
    ∃ r : Int, multiply_by_two_from_c (-2147483648) ⟨[], []⟩ = some (r, ⟨[], []⟩) ∧
      (r = 2 * (-2147483648) ↔ (-1073741824 ≤ (-2147483648 : Int) ∧
        (-2147483648 : Int) ≤ 1073741823)) ∧
      ((-2147483648 : Int) < -1073741824 → r = 2 * (-2147483648) + 4294967296) ∧
      (1073741823 < (-2147483648 : Int) → r = 2 * (-2147483648) - 4294967296) ∧
      (¬ (-1073741824 ≤ (-2147483648 : Int) ∧ (-2147483648 : Int) ≤ 1073741823) →
        |r - 2 * (-2147483648)| = 4294967296) ∧
      multiply_by_two_from_c INT_MAX ⟨[], []⟩ = some (-2, ⟨[], []⟩) :=
  ⟨by decide, multiply_by_two_overflow_range (-2147483648) (by decide) ⟨[], []⟩⟩

/-- C9: for every int32 `x` the returned value is even, and the int32 obtained from `x`
by flipping its sign bit (`x + 2^31` wrapped) is a different int32 that returns the same
value, so the function is not injective; `INT_MIN` and `0` both return `0`; on
`-2^30 ≤ x ≤ 2^30 - 1` the function is injective. -/
theorem multiply_by_two_even_not_injective (x : Int) (hx : isInt32 x) (st : CState) :
    ∃ r : Int, multiply_by_two_from_c x st = some (r, st) ∧ 2 ∣ r ∧
      isInt32 (wrap32 (x + 2147483648)) ∧ wrap32 (x + 2147483648) ≠ x ∧
      multiply_by_two_from_c (wrap32 (x + 2147483648)) st = some (r, st) ∧
      multiply_by_two_from_c INT_MIN st = some (0, st) ∧
      multiply_by_two_from_c 0 st = some (0, st) ∧
      (∀ y : Int, -1073741824 ≤ x → x ≤ 1073741823 → -1073741824 ≤ y → y ≤ 1073741823 →
        multiply_by_two_from_c y st = some (r, st) → y = x) := by
  unfold isInt32 INT_MIN INT_MAX at hx
  refine ⟨int_mul x 2, rfl, ?_, ?_, ?_, ?_, rfl, rfl, ?_⟩
  · unfold int_mul wrap32; omega
  · unfold isInt32 INT_MIN INT_MAX wrap32; omega
  · unfold wrap32; omega
  · have e : int_mul (wrap32 (x + 2147483648)) 2 = int_mul x 2 := by
      unfold int_mul wrap32; omega
    unfold multiply_by_two_from_c
    rw [e]
  · intro y hx1 hx2 hy1 hy2 hcall
    unfold multiply_by_two_from_c at hcall
    have e : int_mul y 2 = int_mul x 2 := by
      have := Option.some.inj hcall
      exact congrArg Prod.fst this
    unfold int_mul wrap32 at e
    omega

theorem multiply_by_two_even_not_injective_witness :
    isInt32 5 ∧
    ∃ r : Int, multiply_by_two_from_c 5 ⟨[], []⟩ = some (r, ⟨[], []⟩) ∧ 2 ∣ r ∧
      isInt32 (wrap32 (5 + 2147483648)) ∧ wrap32 (5 + 2147483648) ≠ 5 ∧
      multiply_by_two_from_c (wrap32 (5 + 2147483648)) ⟨[], []⟩ = some (r, ⟨[], []⟩) ∧
      multiply_by_two_from_c INT_MIN ⟨[], []⟩ = some (0, ⟨[], []⟩) ∧
      multiply_by_two_from_c 0 ⟨[], []⟩ = some (0, ⟨[], []⟩) ∧
      (∀ y : Int, -1073741824 ≤ (5 : Int) → (5 : Int) ≤ 1073741823 → -1073741824 ≤ y →
        y ≤ 1073741823 →
        multiply_by_two_from_c y ⟨[], []⟩ = some (r, ⟨[], []⟩) → y = 5) :=
  ⟨by decide, multiply_by_two_even_not_injective 5 (by decide) ⟨[], []⟩⟩

/-! ## print_string_from_c -/

/-- C3, as amended: for every string `payload` of at most 2147483625 bytes without zero
byte, stored at the pointer and followed by the terminator, the call returns no value
(its result is the unit value), leaves memory as it was and appends to standard output
exactly the fixed text "[C] String from Rust: ", then the bytes of the string, then one
newline; for "hello" the appended bytes are "[C] String from Rust: hello\n"; when the
string holds no newline the appended bytes hold exactly one newline, at their end, so
they are one line. -/
theorem print_string_appends_line (st : CState) (p : Nat) (payload rest : List Byte)
    (h0 : NUL ∉ payload) (hmem : st.mem.drop p = payload ++ NUL :: rest)
    (hlen : payload.length ≤ 2147483625) :
    print_string_from_c p st =
      some ((), CState.mk st.mem (st.stdout ++ (LINE_HEAD ++ payload ++ [NEWLINE]))) ∧
    LINE_HEAD = c_str_lit "[C] String from Rust: " ∧
    (payload = c_str_lit "hello" →
      LINE_HEAD ++ payload ++ [NEWLINE] = c_str_lit "[C] String from Rust: hello\n") ∧
    (NEWLINE ∉ payload →
      (LINE_HEAD ++ payload ++ [NEWLINE]).count NEWLINE = 1 ∧
      (LINE_HEAD ++ payload ++ [NEWLINE]).getLast? = some NEWLINE) := by
  refine ⟨?_, rfl, ?_, ?_⟩
  · rw [print_string_terminated st p payload rest h0 hmem, line_end_short payload hlen]
  · intro e
    subst e
    decide
  · intro hnl
    have hhead : LINE_HEAD.count NEWLINE = 0 := by decide
    refine ⟨?_, by simp⟩
    rw [List.count_append, List.count_append, hhead, List.count_eq_zero_of_not_mem hnl]
    simp

theorem print_string_appends_line_witness :
    NUL ∉ c_str_lit "hello" ∧
    (CState.mk (c_str_lit "hello" ++ [NUL]) []).mem.drop 0 =
      c_str_lit "hello" ++ NUL :: [] ∧
    (c_str_lit "hello").length ≤ 2147483625 ∧
    (print_string_from_c 0 (CState.mk (c_str_lit "hello" ++ [NUL]) []) =
      some ((), CState.mk (CState.mk (c_str_lit "hello" ++ [NUL]) []).mem
        ((CState.mk (c_str_lit "hello" ++ [NUL]) []).stdout ++
          (LINE_HEAD ++ c_str_lit "hello" ++ [NEWLINE]))) ∧
    LINE_HEAD = c_str_lit "[C] String from Rust: " ∧
    (c_str_lit "hello" = c_str_lit "hello" →
      LINE_HEAD ++ c_str_lit "hello" ++ [NEWLINE] =
        c_str_lit "[C] String from Rust: hello\n") ∧
    (NEWLINE ∉ c_str_lit "hello" →
      (LINE_HEAD ++ c_str_lit "hello" ++ [NEWLINE]).count NEWLINE = 1 ∧
      (LINE_HEAD ++ c_str_lit "hello" ++ [NEWLINE]).getLast? = some NEWLINE)) :=
  ⟨by decide, by decide, by decide,
    print_string_appends_line (CState.mk (c_str_lit "hello" ++ [NUL]) []) 0
      (c_str_lit "hello") [] (by decide) (by decide) (by decide)⟩

/-- C3, as first stated, fails: the string of 2147483626 bytes `A` has no zero byte and is
stored with its terminator at the pointer, yet the call appends the fixed text and the
string and no newline, because the count of `printf` has passed `INT_MAX` with the
string; so the appended bytes are not the fixed text, the string and a newline. -/
theorem print_string_long_payload_no_newline :
    NUL ∉ LONG_PAYLOAD ∧
    (CState.mk (LONG_PAYLOAD ++ [NUL]) []).mem.drop 0 = LONG_PAYLOAD ++ NUL :: [] ∧
    print_string_from_c 0 (CState.mk (LONG_PAYLOAD ++ [NUL]) []) =
      some ((), CState.mk (LONG_PAYLOAD ++ [NUL]) ([] ++ (LINE_HEAD ++ LONG_PAYLOAD))) ∧
    print_string_from_c 0 (CState.mk (LONG_PAYLOAD ++ [NUL]) []) ≠
      some ((), CState.mk (LONG_PAYLOAD ++ [NUL])
        ([] ++ (LINE_HEAD ++ LONG_PAYLOAD ++ [NEWLINE]))) := by
  have hmem : (CState.mk (LONG_PAYLOAD ++ [NUL]) []).mem.drop 0 =
      LONG_PAYLOAD ++ NUL :: [] := List.drop_zero _
  have hrun : print_string_from_c 0 (CState.mk (LONG_PAYLOAD ++ [NUL]) []) =
      some ((), CState.mk (LONG_PAYLOAD ++ [NUL]) ([] ++ (LINE_HEAD ++ LONG_PAYLOAD))) := by
    rw [print_string_terminated (CState.mk (LONG_PAYLOAD ++ [NUL]) []) 0 LONG_PAYLOAD []
      long_payload_no_nul hmem, line_end_long, List.append_nil]
  refine ⟨long_payload_no_nul, hmem, hrun, ?_⟩
  rw [hrun]
  exact state_without_newline_ne _ _ _ _

/-- C4: when the first byte at the pointer is the terminator (the empty string), the call
is defined, the string read is empty, and the bytes appended to standard output are the
fixed text "[C] String from Rust: " immediately followed by the newline. -/
theorem print_string_empty (st : CState) (p : Nat) (rest : List Byte)
    (hmem : st.mem.drop p = NUL :: rest) :
    read_cstr (st.mem.drop p) = some [] ∧
    print_string_from_c p st =
      some ((), CState.mk st.mem (st.stdout ++ (LINE_HEAD ++ [NEWLINE]))) ∧
    LINE_HEAD ++ [NEWLINE] = c_str_lit "[C] String from Rust: \n" := by
  refine ⟨?_, ?_, by decide⟩
  · rw [hmem]; simp [read_cstr]
  · have h := print_string_terminated st p [] rest (by simp) (by simpa using hmem)
    rw [line_end_short [] (by simp)] at h
    simpa using h

theorem print_string_empty_witness :
    (CState.mk [NUL, 120] [7]).mem.drop 0 = NUL :: [120] ∧
    (read_cstr ((CState.mk [NUL, 120] [7]).mem.drop 0) = some [] ∧
    print_string_from_c 0 (CState.mk [NUL, 120] [7]) =
      some ((), CState.mk (CState.mk [NUL, 120] [7]).mem
        ((CState.mk [NUL, 120] [7]).stdout ++ (LINE_HEAD ++ [NEWLINE]))) ∧
    LINE_HEAD ++ [NEWLINE] = c_str_lit "[C] String from Rust: \n") :=
  ⟨by decide, print_string_empty (CState.mk [NUL, 120] [7]) 0 [120] (by decide)⟩

/-- C5: neither call changes its input: for every pointer to a terminated buffer the
call of `print_string_from_c` is defined and the memory after it, hence the bytes of the
buffer, are those before it; `multiply_by_two_from_c` takes the value `x` and leaves the
whole state, where the caller keeps its copy, as it was. -/
theorem calls_do_not_mutate_inputs (st : CState) (p : Nat) (hvalid : NUL ∈ st.mem.drop p)
    (x : Int) (hx : isInt32 x) :
    (∃ st2 : CState, print_string_from_c p st = some ((), st2) ∧ st2.mem = st.mem ∧
      st2.mem.drop p = st.mem.drop p) ∧
    (∃ r : Int, multiply_by_two_from_c x st = some (r, st)) := by
  have _ := hx
  obtain ⟨payload, rest, h0, hmem⟩ := split_at_first_nul _ hvalid
  exact ⟨⟨_, print_string_terminated st p payload rest h0 hmem, rfl, rfl⟩,
    ⟨int_mul x 2, rfl⟩⟩

theorem calls_do_not_mutate_inputs_witness :
    NUL ∈ (CState.mk [9, 104, 105, 0, 33] []).mem.drop 1 ∧ isInt32 21 ∧
    ((∃ st2 : CState, print_string_from_c 1 (CState.mk [9, 104, 105, 0, 33] []) =
        some ((), st2) ∧ st2.mem = (CState.mk [9, 104, 105, 0, 33] []).mem ∧
      st2.mem.drop 1 = (CState.mk [9, 104, 105, 0, 33] []).mem.drop 1) ∧
    (∃ r : Int, multiply_by_two_from_c 21 (CState.mk [9, 104, 105, 0, 33] []) =
      some (r, CState.mk [9, 104, 105, 0, 33] []))) :=
  ⟨by decide, by decide,
    calls_do_not_mutate_inputs (CState.mk [9, 104, 105, 0, 33] []) 1 (by decide) 21
      (by decide)⟩

end MyCLib
